import Mathlib

/-!
Shallow embedding of `src/scripts/refactor_types.py`, the cforge codebase
refactoring script.

A line of text is modelled as `List Char`; a whole file's content as a
`List Char` containing newline characters.  Every regular expression the
script uses is hand-compiled:

* each `TYPE_MAPPINGS` pattern has the shape `\b w \b` for a literal word `w`
  that begins and ends with word characters, so a match of the pattern at
  offset `i` is exactly: `w` occurs literally at `i`, the character before `i`
  (if any) is not a word character, and the character after the occurrence
  (if any) is not a word character (`wordMatchAt` below);
* the `SKIP_PATTERNS` are literal substrings except `using\s+`, which is a
  literal followed by one whitespace character (further `\s` repetition is
  irrelevant to a boolean search);
* the anchored declaration patterns of `find_declarations_in_source` are
  concatenations of literals, `\s+`, `\s*`, `\w+`, `[^)]*` and optional
  groups; each is compiled to a deterministic matcher, with the optional
  groups compiled to Python's try-group-first-then-backtrack disjunction.
  All other concatenation points join sub-patterns with disjoint first-character
  sets (`\w`, `\s`, and the relevant literal punctuation are pairwise
  disjoint), so greedy maximal munch is the unique candidate and no further
  backtracking can change the boolean result.
-/

namespace Refactor

/-- Python's word character class `\w` on the ASCII range: letters, digits
and underscore. -/
def isWordChar (c : Char) : Bool := c.isAlphanum || c == '_'

/-- Python's whitespace class `\s` on the ASCII range. -/
def pyIsSpace (c : Char) : Bool :=
  c == ' ' || c == '\t' || c == '\n' || c == '\r' || c == '\x0b' || c == '\x0c'

/-- The regex `\b w \b` (for a literal word `w` beginning and ending with word
characters) matches `s` exactly at offset `i`. -/
def wordMatchAt (w s : List Char) (i : Nat) : Bool :=
  w.isPrefixOf (s.drop i)
  && (i == 0 || !isWordChar (s.getD (i - 1) ' '))
  && (i + w.length == s.length || !isWordChar (s.getD (i + w.length) ' '))

/-- Scanner for `re.finditer(\b w \b, s)`: collect non-overlapping matches left
to right, resuming after the end of each match.  `fuel` bounds the recursion;
`s.length + 1` is always enough since the position advances at every step. -/
def findMatchesAux (w s : List Char) : Nat → Nat → List Nat
  | _, 0 => []
  | i, fuel + 1 =>
    if s.length ≤ i then []
    else if wordMatchAt w s i then i :: findMatchesAux w s (i + w.length) fuel
    else findMatchesAux w s (i + 1) fuel

/-- Match offsets of `re.finditer(\b w \b, s)`. -/
def findMatches (w s : List Char) : List Nat :=
  findMatchesAux w s 0 (s.length + 1)

/-- Boolean of `re.search(\b w \b, s)`. -/
def pySearchWord (w s : List Char) : Bool :=
  (List.range s.length).any fun i => wordMatchAt w s i

/-- Scanner for `re.sub(\b w \b, repl, s)`: copy characters, replacing each
non-overlapping match left to right.  Same fuel discipline as
`findMatchesAux`. -/
def pySubAux (w repl s : List Char) : Nat → Nat → List Char
  | _, 0 => []
  | i, fuel + 1 =>
    if s.length ≤ i then []
    else if wordMatchAt w s i then repl ++ pySubAux w repl s (i + w.length) fuel
    else s.getD i ' ' :: pySubAux w repl s (i + 1) fuel

/-- Result of `re.sub(\b w \b, repl, s)`. -/
def pySub (w repl s : List Char) : List Char :=
  pySubAux w repl s 0 (s.length + 1)

/-- Python `content.split('\n')`. -/
def splitNl : List Char → List (List Char)
  | [] => [[]]
  | c :: rest =>
    if c == '\n' then [] :: splitNl rest
    else
      match splitNl rest with
      | [] => [[c]]
      | l :: ls => (c :: l) :: ls

/-- Python `'\n'.join(lines)`. -/
def joinNl : List (List Char) → List Char
  | [] => []
  | [l] => l
  | l :: ls => l ++ '\n' :: joinNl ls

/-- Python `enumerate(lines, 1)`. -/
def enumLines (n : Nat) : List (List Char) → List (Nat × List Char)
  | [] => []
  | l :: ls => (n, l) :: enumLines (n + 1) ls

/-- Python `line.strip()` (ASCII whitespace). -/
def pyStrip (s : List Char) : List Char :=
  ((s.dropWhile pyIsSpace).reverse.dropWhile pyIsSpace).reverse

/-- `TYPE_MAPPINGS` (refactor_types.py lines 18-34), in dict insertion order.
Each regex `\b w \b` is represented by its word `w`, paired with the
replacement alias.  The raw regex source has length `w.length + 4` (the two
`\b` escapes), see `patternLen`. -/
def TYPE_MAPPINGS : List (List Char × List Char) := [
  ("int".toList, "cforge_int_t".toList),
  ("unsigned int".toList, "cforge_uint_t".toList),
  ("signed int".toList, "cforge_int_t".toList),
  ("unsigned char".toList, "cforge_byte_t".toList),
  ("signed char".toList, "cforge_sbyte_t".toList),
  ("unsigned short".toList, "cforge_ushort_t".toList),
  ("signed short".toList, "cforge_short_t".toList),
  ("unsigned long long".toList, "cforge_ulong_t".toList),
  ("signed long long".toList, "cforge_long_t".toList),
  ("long long".toList, "cforge_long_t".toList),
  ("float".toList, "cforge_float_t".toList),
  ("double".toList, "cforge_double_t".toList),
  ("long double".toList, "cforge_ldouble_t".toList),
  ("size_t".toList, "cforge_size_t".toList)]

/-- Length of the raw regex source `\b w \b` of a mapping, the sort key used
by `sorted(TYPE_MAPPINGS.items(), key=lambda x: len(x[0]), reverse=True)`. -/
def patternLen (m : List Char × List Char) : Nat := m.1.length + 4

/-- Stable descending insertion: place `x` after every element of strictly
greater key and before every element of equal or smaller key, which is where
Python's stable `sorted(..., reverse=True)` puts an element that precedes all
of them in the original order. -/
def insertByLen (x : List Char × List Char) :
    List (List Char × List Char) → List (List Char × List Char)
  | [] => [x]
  | y :: ys => if patternLen y ≤ patternLen x then x :: y :: ys
               else y :: insertByLen x ys

/-- Stable sort by descending `patternLen`, Python
`sorted(TYPE_MAPPINGS.items(), key=lambda x: len(x[0]), reverse=True)`. -/
def sortMappings : List (List Char × List Char) → List (List Char × List Char)
  | [] => []
  | x :: xs => insertByLen x (sortMappings xs)

/-- `sorted_mappings` (refactor_types.py line 267). -/
def sorted_mappings : List (List Char × List Char) := sortMappings TYPE_MAPPINGS

/-- Python's substring test `p in s` (also `re.search` for a literal
pattern): `p` occurs contiguously somewhere in `s`. -/
def containsSub (p s : List Char) : Bool :=
  (List.range (s.length + 1)).any fun i => p.isPrefixOf (s.drop i)

/-- Boolean of `re.search(p, line)` for a literal pattern `p`. -/
def searchLit (p line : List Char) : Bool := containsSub p line

/-- Boolean of `re.search(r'using\s+', line)`: some occurrence of `using`
followed by at least one whitespace character. -/
def searchUsingWs (line : List Char) : Bool :=
  (List.range line.length).any fun i =>
    "using".toList.isPrefixOf (line.drop i)
    && (match line.drop (i + 5) with
        | c :: _ => pyIsSpace c
        | [] => false)

/-- `should_skip_line` (refactor_types.py lines 65-70): the searches of the
twelve `SKIP_PATTERNS` in order, all literal except `using\s+`. -/
def should_skip_line (line : List Char) : Bool :=
  searchLit "#include".toList line || searchLit "#define".toList line ||
  searchLit "typedef".toList line || searchUsingWs line ||
  searchLit "static_cast<".toList line || searchLit "dynamic_cast<".toList line ||
  searchLit "reinterpret_cast<".toList line || searchLit "const_cast<".toList line ||
  searchLit "std::".toList line || searchLit "fmt::".toList line ||
  searchLit "toml::".toList line || searchLit "cforge_".toList line

/-- Body of the inner match loop of `find_bare_types` (refactor_types.py
lines 84-96): given a match of mapping `m` at offset `i` of `line`, apply the
two context guards; `none` models `continue`, `some` the appended triple
`(line_num, match.group(), replacement)` (the matched text of `\b w \b` is
`w` itself, `\b` being zero-width). -/
def contextFilter (line_num : Nat) (line : List Char) (m : List Char × List Char)
    (i : Nat) : Option (Nat × List Char × List Char) :=
  let before := line.take i
  if before.contains '<' && !(before.contains '>') then none
  else if containsSub "cforge_".toList (before.drop (before.length - 20)) then none
  else some (line_num, m.1, m.2)

/-- `find_bare_types` (refactor_types.py lines 72-98).  Iterates lines
(1-based), skipping classified lines, then the mappings in dict insertion
order, then the matches of each mapping left to right. -/
def find_bare_types (content : List Char) : List (Nat × List Char × List Char) :=
  (enumLines 1 (splitNl content)).flatMap fun p =>
    if should_skip_line p.2 then []
    else TYPE_MAPPINGS.flatMap fun m =>
      (findMatches m.1 p.2).filterMap fun i => contextFilter p.1 p.2 m i

/-- One step of the rewrite loop over `sorted_mappings` (refactor_types.py
lines 269-280), acting on the accumulator `(new_line, changes)`. -/
def applyPattern (acc : List Char × Nat) (m : List Char × List Char) :
    List Char × Nat :=
  if pySearchWord m.1 acc.1 then
    if containsSub "std::".toList acc.1 then acc
    else if pySub m.1 m.2 acc.1 ≠ acc.1 then (pySub m.1 m.2 acc.1, acc.2 + 1)
    else (pySub m.1 m.2 acc.1, acc.2)
  else acc

/-- Per-line body of `replace_types_in_file` (refactor_types.py lines
262-282): a skipped line is emitted unchanged with zero change events,
otherwise the sorted mappings are folded over the line. -/
def processLine (line : List Char) : List Char × Nat :=
  if should_skip_line line then (line, 0)
  else sorted_mappings.foldl applyPattern (line, 0)

/-- Pure content-level part of `replace_types_in_file` (refactor_types.py
lines 258-285): split on newlines, rewrite each line, join, and total the
change count. -/
def replace_types_content (content : List Char) : List Char × Nat :=
  let results := (splitNl content).map processLine
  (joinNl (results.map Prod.fst), (results.map Prod.snd).sum)

/-- Observable outcome of `replace_types_in_file` on one file: the returned
change count, the content written to disk (`none` when the file is not
touched), and the error message printed on a read failure. -/
structure FileOutcome where
  changes : Nat
  written : Option (List Char)
  errMsg : Option (List Char)
  deriving DecidableEq, Repr

/-- `replace_types_in_file` (refactor_types.py lines 250-290).  Reading the
file is modelled by the `readResult` argument: `Except.error e` is a raised
exception whose rendering is `e`.  On success the file is overwritten exactly
when `changes > 0` and `dry_run` is false (lines 284-287); on failure the
`except` branch prints the path with the cause and returns 0 (lines 254-256). -/
def replace_types_in_file (filepath : List Char)
    (readResult : Except (List Char) (List Char)) (dry_run : Bool) : FileOutcome :=
  match readResult with
  | Except.error e =>
    { changes := 0, written := none,
      errMsg := some ("Error reading ".toList ++ filepath ++ ": ".toList ++ e) }
  | Except.ok content =>
    { changes := (replace_types_content content).2,
      written :=
        if 0 < (replace_types_content content).2 then
          if dry_run then none else some (replace_types_content content).1
        else none,
      errMsg := none }

/-- The `--replace-types` loop of `main` (refactor_types.py lines 310-317):
process every discovered file in order and accumulate `total_changes`.  A file
is given as its path together with the outcome of reading it. -/
def run_replace (files : List (List Char × Except (List Char) (List Char)))
    (dry_run : Bool) : List FileOutcome × Nat :=
  let outcomes := files.map fun f => replace_types_in_file f.1 f.2 dry_run
  (outcomes, (outcomes.map FileOutcome.changes).sum)

/-! ### Declaration scanner (`find_declarations_in_source`) -/

/-- Literal-prefix matcher: consume `p` from the front of `s`. -/
def lit : List Char → List Char → Option (List Char)
  | [], s => some s
  | _ :: _, [] => none
  | c :: p, d :: s => if c == d then lit p s else none

/-- Greedy maximal munch of characters satisfying `f` (regex `X*` for a
class `X`). -/
def munch (f : Char → Bool) : List Char → List Char
  | [] => []
  | c :: s => if f c then munch f s else c :: s

/-- Greedy munch requiring at least one character (regex `X+`). -/
def munch1 (f : Char → Bool) : List Char → Option (List Char)
  | [] => none
  | c :: s => if f c then some (munch f s) else none

/-- Head of the remainder is one of the given characters. -/
def headIs (cs : List Char) : List Char → Bool
  | [] => false
  | c :: _ => cs.contains c

/-- Anchored match of `^class\s+\w+\s*[{;]` (declaration pattern 1). -/
def matchClassDecl (s : List Char) : Bool :=
  match lit "class".toList s with
  | none => false
  | some s1 =>
    match munch1 pyIsSpace s1 with
    | none => false
    | some s2 =>
      match munch1 isWordChar s2 with
      | none => false
      | some s3 => headIs ['\x7b', ';'] (munch pyIsSpace s3)

/-- Anchored match of `^struct\s+\w+\s*;` (declaration pattern 2). -/
def matchStructDecl (s : List Char) : Bool :=
  match lit "struct".toList s with
  | none => false
  | some s1 =>
    match munch1 pyIsSpace s1 with
    | none => false
    | some s2 =>
      match munch1 isWordChar s2 with
      | none => false
      | some s3 => headIs [';'] (munch pyIsSpace s3)

/-- Tail `\w+\s*[{;]` shared by the enum pattern. -/
def enumTail (s : List Char) : Bool :=
  match munch1 isWordChar s with
  | none => false
  | some s1 => headIs ['\x7b', ';'] (munch pyIsSpace s1)

/-- Anchored match of `^enum\s+(class\s+)?\w+\s*[{;]` (declaration pattern 3).
The optional group follows Python backtracking: try with the group, and on
failure of the rest retry without it (a shorter munch of the group's `\s+`
leaves a whitespace character where `\w+` is required, so only the maximal
munch can succeed). -/
def matchEnumDecl (s : List Char) : Bool :=
  match lit "enum".toList s with
  | none => false
  | some s1 =>
    match munch1 pyIsSpace s1 with
    | none => false
    | some s2 =>
      (match lit "class".toList s2 with
       | some s3 =>
         (match munch1 pyIsSpace s3 with
          | some s4 => enumTail s4 || enumTail s2
          | none => enumTail s2)
       | none => enumTail s2)

/-- Tail `(\w+)\s+(\w+)\s*\([^)]*\)\s*;` of the function-declaration pattern.
`[^)]*` munches greedily up to the first `)` or the end, which is its unique
viable extent. -/
def funDeclTail (s : List Char) : Bool :=
  match munch1 isWordChar s with
  | none => false
  | some s1 =>
    match munch1 pyIsSpace s1 with
    | none => false
    | some s2 =>
      match munch1 isWordChar s2 with
      | none => false
      | some s3 =>
        match munch pyIsSpace s3 with
        | '(' :: s4 =>
          (match munch (fun c => c != ')') s4 with
           | ')' :: s5 => headIs [';'] (munch pyIsSpace s5)
           | _ => false)
        | _ => false

/-- The optional qualifier group `(\w+::)?` before `funDeclTail`: try with the
group (maximal `\w+` then the literal `::`), else without. -/
def qualThenTail (s : List Char) : Bool :=
  (match munch1 isWordChar s with
   | some s1 =>
     (match lit "::".toList s1 with
      | some s2 => funDeclTail s2
      | none => false)
   | none => false) || funDeclTail s

/-- An optional keyword group `(kw\s+)?` with Python backtracking: the
with-group attempt, else the continuation on the unconsumed input. -/
def optKw (kw : List Char) (k : List Char → Bool) (s : List Char) : Bool :=
  (match lit kw s with
   | some s1 =>
     (match munch1 pyIsSpace s1 with
      | some s2 => k s2
      | none => false)
   | none => false) || k s

/-- Anchored match of
`^(static\s+)?(inline\s+)?(const\s+)?(\w+::)?(\w+)\s+(\w+)\s*\([^)]*\)\s*;`
(declaration pattern 4). -/
def matchFunDecl (s : List Char) : Bool :=
  optKw "static".toList (optKw "inline".toList (optKw "const".toList qualThenTail)) s

/-- Anchored match of `^using\s+\w+\s*=` (declaration pattern 5). -/
def matchUsingAlias (s : List Char) : Bool :=
  match lit "using".toList s with
  | none => false
  | some s1 =>
    match munch1 pyIsSpace s1 with
    | none => false
    | some s2 =>
      match munch1 isWordChar s2 with
      | none => false
      | some s3 => headIs ['='] (munch pyIsSpace s3)

/-- Anchored match of `^typedef\s+` (declaration pattern 6). -/
def matchTypedefDecl (s : List Char) : Bool :=
  match lit "typedef".toList s with
  | none => false
  | some s1 =>
    match munch1 pyIsSpace s1 with
    | none => false
    | some _ => true

/-- `declaration_patterns` (refactor_types.py lines 106-118), in order. -/
def declaration_patterns : List (List Char → Bool) :=
  [matchClassDecl, matchStructDecl, matchEnumDecl, matchFunDecl,
   matchUsingAlias, matchTypedefDecl]

/-- The inner loop over `declaration_patterns` for one stripped line
(refactor_types.py lines 136-141): on a pattern match, `continue` when the
line contains `{` but no `}`, otherwise append and `break`.  Returns whether
the line is appended to the results. -/
def declLoop (stripped : List Char) : List (List Char → Bool) → Bool
  | [] => false
  | p :: ps =>
    if p stripped then
      if stripped.contains '\x7b' && !(stripped.contains '\x7d') then
        declLoop stripped ps
      else true
    else declLoop stripped ps

/-- Whether a stripped line is reported by `find_declarations_in_source`. -/
def declLineReported (stripped : List Char) : Bool :=
  declLoop stripped declaration_patterns

/-- `find_declarations_in_source` (refactor_types.py lines 100-144).  The
namespace-depth tracking of lines 120-133 maintains `in_namespace` and
`namespace_depth`, which the function never reads when producing its result
list, so the embedding elides that dead state. -/
def find_declarations_in_source (content : List Char) : List (Nat × List Char) :=
  (enumLines 1 (splitNl content)).filterMap fun p =>
    let stripped := pyStrip p.2
    if declLineReported stripped then some (p.1, stripped.take 80) else none

/-- Sample run input whose single file fails to read, used to witness the
error-recovery behaviour. -/
def sampleErrorFiles : List (List Char × Except (List Char) (List Char)) :=
  [("f.cpp".toList, Except.error "boom".toList)]

/-! ### Helper lemmas -/

theorem containsSub_iff {p s : List Char} : containsSub p s = true ↔ p <:+: s := by
  simp only [containsSub, List.any_eq_true, List.mem_range]
  constructor
  · rintro ⟨i, _, hp⟩
    obtain ⟨t, ht⟩ := List.isPrefixOf_iff_prefix.mp hp
    exact ⟨s.take i, t, by rw [List.append_assoc, ht, List.take_append_drop]⟩
  · rintro ⟨u, v, huv⟩
    refine ⟨u.length, ?_, ?_⟩
    · have hlen : s.length = u.length + (p.length + v.length) := by
        rw [← huv]; simp [Nat.add_assoc]
      omega
    · apply List.isPrefixOf_iff_prefix.mpr
      have hdrop : s.drop u.length = p ++ v := by
        rw [← huv, List.append_assoc, List.drop_left]
      exact ⟨v, hdrop.symm⟩

theorem pre_trans_inf {u v w : List Char} (h1 : u <+: v) (h2 : v <:+: w) :
    u <:+: w := by
  obtain ⟨t, rfl⟩ := h1
  obtain ⟨a, b, rfl⟩ := h2
  exact ⟨a, t ++ b, by simp [List.append_assoc]⟩

theorem inf_cons {l t : List Char} (c : Char) (h : l <:+: t) : l <:+: c :: t := by
  obtain ⟨a, b, rfl⟩ := h
  exact ⟨c :: a, b, rfl⟩

theorem inf_dropTake (line : List Char) (i k : Nat) :
    (line.take i).drop k <:+: line :=
  ⟨(line.take i).take k, line.drop i, by
    rw [List.take_append_drop, List.take_append_drop]⟩

theorem skip_of_cf {line : List Char}
    (h : containsSub "cforge_".toList line = true) :
    should_skip_line line = true := by
  simp only [should_skip_line, searchLit, h, Bool.or_true]

theorem wordMatch_lt {w s : List Char} {j : Nat} (hw : w ≠ [])
    (hj : wordMatchAt w s j = true) : j < s.length := by
  have hpre : w.isPrefixOf (s.drop j) = true := by
    simp only [wordMatchAt, Bool.and_eq_true] at hj
    exact hj.1.1
  have h1 := (List.isPrefixOf_iff_prefix.mp hpre).length_le
  rw [List.length_drop] at h1
  have h2 : 0 < w.length := List.length_pos.mpr hw
  omega

theorem search_wordMatch {w s : List Char} (hs : pySearchWord w s = true) :
    ∃ j, wordMatchAt w s j = true := by
  simp only [pySearchWord, List.any_eq_true, List.mem_range] at hs
  obtain ⟨j, _, hj⟩ := hs
  exact ⟨j, hj⟩

theorem repl_inf_pySubAux {w repl s : List Char} (hw : w ≠ []) :
    ∀ fuel i j, wordMatchAt w s j = true → i ≤ j → s.length ≤ i + fuel →
      repl <:+: pySubAux w repl s i fuel := by
  intro fuel
  induction fuel with
  | zero =>
    intro i j hj hij hfuel
    have := wordMatch_lt hw hj
    omega
  | succ fuel ih =>
    intro i j hj hij hfuel
    have hjlt := wordMatch_lt hw hj
    have hi : ¬ s.length ≤ i := by omega
    rw [pySubAux, if_neg hi]
    by_cases hm : wordMatchAt w s i = true
    · rw [if_pos hm]
      exact ⟨[], pySubAux w repl s (i + w.length) fuel, rfl⟩
    · rw [if_neg hm]
      have hine : i ≠ j := fun he => hm (he ▸ hj)
      exact inf_cons _ (ih (i + 1) j hj (by omega) (by omega))

theorem repl_inf_pySub {w repl s : List Char} (hw : w ≠ [])
    (hs : pySearchWord w s = true) : repl <:+: pySub w repl s := by
  obtain ⟨j, hj⟩ := search_wordMatch hs
  exact repl_inf_pySubAux hw _ 0 j hj (Nat.zero_le j) (by omega)

theorem mem_pySubAux {w repl s : List Char} {c : Char} :
    ∀ fuel i, c ∈ pySubAux w repl s i fuel → c ∈ repl ∨ c ∈ s := by
  intro fuel
  induction fuel with
  | zero => intro i h; simp [pySubAux] at h
  | succ fuel ih =>
    intro i h
    rw [pySubAux] at h
    by_cases hi : s.length ≤ i
    · rw [if_pos hi] at h; simp at h
    · rw [if_neg hi] at h
      by_cases hm : wordMatchAt w s i = true
      · rw [if_pos hm] at h
        rcases List.mem_append.mp h with h | h
        · exact Or.inl h
        · exact ih _ h
      · rw [if_neg hm] at h
        rcases List.mem_cons.mp h with h | h
        · subst h
          have hlt : i < s.length := by omega
          rw [List.getD_eq_getElem s ' ' hlt]
          exact Or.inr (List.getElem_mem hlt)
        · exact ih _ h

theorem mem_pySub {w repl s : List Char} {c : Char}
    (h : c ∈ pySub w repl s) : c ∈ repl ∨ c ∈ s := mem_pySubAux _ _ h

/-- Facts about every mapping that the idempotence argument needs: the
replacement starts with the alias prefix `cforge_`, the pattern word is
nonempty, and the replacement contains no newline. -/
def mappingOK (m : List Char × List Char) : Bool :=
  "cforge_".toList.isPrefixOf m.2 && !m.1.isEmpty && !m.2.contains '\n'

theorem sorted_mappings_ok : sorted_mappings.all mappingOK = true := by decide

theorem mappingOK_cf {m : List Char × List Char} (h : mappingOK m = true) :
    "cforge_".toList <+: m.2 := by
  simp only [mappingOK, Bool.and_eq_true] at h
  exact List.isPrefixOf_iff_prefix.mp h.1.1

theorem mappingOK_ne {m : List Char × List Char} (h : mappingOK m = true) :
    m.1 ≠ [] := by
  simp only [mappingOK, Bool.and_eq_true] at h
  have h2 := h.1.2
  intro he
  rw [he] at h2
  simp at h2

theorem mappingOK_no_nl {m : List Char × List Char} (h : mappingOK m = true) :
    '\n' ∉ m.2 := by
  simp only [mappingOK, Bool.and_eq_true] at h
  have h2 := h.2
  simpa using h2

theorem applyPattern_le (acc : List Char × Nat) (m : List Char × List Char) :
    acc.2 ≤ (applyPattern acc m).2 := by
  unfold applyPattern
  by_cases h1 : pySearchWord m.1 acc.1 = true
  · rw [if_pos h1]
    by_cases h2 : containsSub "std::".toList acc.1 = true
    · rw [if_pos h2]
    · rw [if_neg h2]
      by_cases h3 : pySub m.1 m.2 acc.1 = acc.1
      · rw [if_neg (not_not_intro h3)]
      · rw [if_pos h3]
        exact Nat.le_succ _
  · rw [if_neg h1]

theorem applyPattern_count_eq (acc : List Char × Nat) (m : List Char × List Char)
    (h : (applyPattern acc m).2 = acc.2) : (applyPattern acc m).1 = acc.1 := by
  unfold applyPattern at h ⊢
  by_cases h1 : pySearchWord m.1 acc.1 = true
  · rw [if_pos h1] at h ⊢
    by_cases h2 : containsSub "std::".toList acc.1 = true
    · rw [if_pos h2]
    · rw [if_neg h2] at h ⊢
      by_cases h3 : pySub m.1 m.2 acc.1 = acc.1
      · rw [if_neg (not_not_intro h3)]
        exact h3
      · rw [if_pos h3] at h
        exact absurd h (by simp)
  · rw [if_neg h1]

theorem applyPattern_cf (acc : List Char × Nat) (m : List Char × List Char)
    (hok : mappingOK m = true)
    (hinv : 0 < acc.2 → "cforge_".toList <:+: acc.1) :
    0 < (applyPattern acc m).2 → "cforge_".toList <:+: (applyPattern acc m).1 := by
  unfold applyPattern
  by_cases h1 : pySearchWord m.1 acc.1 = true
  · have hcf : "cforge_".toList <:+: pySub m.1 m.2 acc.1 :=
      pre_trans_inf (mappingOK_cf hok) (repl_inf_pySub (mappingOK_ne hok) h1)
    rw [if_pos h1]
    by_cases h2 : containsSub "std::".toList acc.1 = true
    · rw [if_pos h2]; exact hinv
    · rw [if_neg h2]
      by_cases h3 : pySub m.1 m.2 acc.1 = acc.1
      · rw [if_neg (not_not_intro h3)]
        exact fun _ => hcf
      · rw [if_pos h3]
        exact fun _ => hcf
  · rw [if_neg h1]; exact hinv

theorem applyPattern_no_nl (acc : List Char × Nat) (m : List Char × List Char)
    (hok : mappingOK m = true) (h : '\n' ∉ acc.1) :
    '\n' ∉ (applyPattern acc m).1 := by
  unfold applyPattern
  by_cases h1 : pySearchWord m.1 acc.1 = true
  · rw [if_pos h1]
    by_cases h2 : containsSub "std::".toList acc.1 = true
    · rw [if_pos h2]; exact h
    · have hpy : '\n' ∉ pySub m.1 m.2 acc.1 := by
        intro hmem
        rcases mem_pySub hmem with hmem | hmem
        · exact mappingOK_no_nl hok hmem
        · exact h hmem
      rw [if_neg h2]
      by_cases h3 : pySub m.1 m.2 acc.1 = acc.1
      · rw [if_neg (not_not_intro h3)]
        exact hpy
      · rw [if_pos h3]
        exact hpy
  · rw [if_neg h1]; exact h

theorem foldl_le (ms : List (List Char × List Char)) (acc : List Char × Nat) :
    acc.2 ≤ (ms.foldl applyPattern acc).2 := by
  induction ms generalizing acc with
  | nil => exact Nat.le_refl _
  | cons m ms ih =>
    exact Nat.le_trans (applyPattern_le acc m) (ih (applyPattern acc m))

theorem foldl_count_eq (ms : List (List Char × List Char)) (acc : List Char × Nat)
    (h : (ms.foldl applyPattern acc).2 = acc.2) :
    (ms.foldl applyPattern acc).1 = acc.1 := by
  induction ms generalizing acc with
  | nil => rfl
  | cons m ms ih =>
    simp only [List.foldl_cons] at h ⊢
    have hstep : (applyPattern acc m).2 = acc.2 := by
      have ha := applyPattern_le acc m
      have hb := foldl_le ms (applyPattern acc m)
      omega
    rw [ih (applyPattern acc m) (by omega), applyPattern_count_eq acc m hstep]

theorem foldl_cf (ms : List (List Char × List Char)) (acc : List Char × Nat)
    (hms : ms.all mappingOK = true)
    (hinv : 0 < acc.2 → "cforge_".toList <:+: acc.1) :
    0 < (ms.foldl applyPattern acc).2 →
      "cforge_".toList <:+: (ms.foldl applyPattern acc).1 := by
  induction ms generalizing acc with
  | nil => exact hinv
  | cons m ms ih =>
    simp only [List.all_cons, Bool.and_eq_true] at hms
    simp only [List.foldl_cons]
    exact ih (applyPattern acc m) hms.2 (applyPattern_cf acc m hms.1 hinv)

theorem foldl_no_nl (ms : List (List Char × List Char)) (acc : List Char × Nat)
    (hms : ms.all mappingOK = true) (h : '\n' ∉ acc.1) :
    '\n' ∉ (ms.foldl applyPattern acc).1 := by
  induction ms generalizing acc with
  | nil => exact h
  | cons m ms ih =>
    simp only [List.all_cons, Bool.and_eq_true] at hms
    simp only [List.foldl_cons]
    exact ih (applyPattern acc m) hms.2 (applyPattern_no_nl acc m hms.1 h)

theorem bool_not_true {b : Bool} (h : ¬ b = true) : b = false := by
  cases b
  · rfl
  · exact absurd rfl h

theorem processLine_skip {line : List Char} (hs : should_skip_line line = true) :
    processLine line = (line, 0) := by
  unfold processLine
  rw [if_pos hs]

theorem processLine_noskip {line : List Char}
    (hs : ¬ should_skip_line line = true) :
    processLine line = sorted_mappings.foldl applyPattern (line, 0) := by
  unfold processLine
  rw [if_neg hs]

theorem processLine_count_zero {line : List Char}
    (h : (processLine line).2 = 0) : (processLine line).1 = line := by
  by_cases hs : should_skip_line line = true
  · rw [processLine_skip hs]
  · rw [processLine_noskip hs] at h ⊢
    exact foldl_count_eq sorted_mappings (line, 0) h

theorem processLine_cf {line : List Char} (h : 0 < (processLine line).2) :
    "cforge_".toList <:+: (processLine line).1 := by
  by_cases hs : should_skip_line line = true
  · rw [processLine_skip hs] at h
    exact absurd h (by simp)
  · rw [processLine_noskip hs] at h ⊢
    exact foldl_cf sorted_mappings (line, 0) sorted_mappings_ok
      (fun h0 => absurd h0 (by simp)) h

theorem processLine_no_nl {line : List Char} (h : '\n' ∉ line) :
    '\n' ∉ (processLine line).1 := by
  by_cases hs : should_skip_line line = true
  · rw [processLine_skip hs]
    exact h
  · rw [processLine_noskip hs]
    exact foldl_no_nl sorted_mappings (line, 0) sorted_mappings_ok h

theorem processLine_idem (line : List Char) :
    processLine (processLine line).1 = ((processLine line).1, 0) := by
  rcases Nat.eq_zero_or_pos (processLine line).2 with h0 | hpos
  · have h1 := processLine_count_zero h0
    have h2 : processLine line = (line, 0) := Prod.ext h1 h0
    rw [h1]
    exact h2
  · exact processLine_skip
      (skip_of_cf (containsSub_iff.mpr (processLine_cf hpos)))

theorem splitNl_ne_nil (s : List Char) : splitNl s ≠ [] := by
  induction s with
  | nil => simp [splitNl]
  | cons c rest ih =>
    simp only [splitNl]
    split
    · simp
    · split
      · simp
      · simp

theorem mem_splitNl_no_nl {s l : List Char} (h : l ∈ splitNl s) : '\n' ∉ l := by
  induction s generalizing l with
  | nil =>
    simp only [splitNl, List.mem_singleton] at h
    subst h; simp
  | cons c rest ih =>
    simp only [splitNl] at h
    by_cases hc : c = '\n'
    · rw [if_pos (by simp [hc])] at h
      rcases List.mem_cons.mp h with rfl | h
      · simp
      · exact ih h
    · rw [if_neg (by simp [hc])] at h
      rcases hsr : splitNl rest with _ | ⟨l₀, ls⟩
      · exact absurd hsr (splitNl_ne_nil rest)
      · rw [hsr] at h
        rcases List.mem_cons.mp h with rfl | h
        · intro hmem
          rcases List.mem_cons.mp hmem with he | hmem
          · exact hc he.symm
          · exact ih (l := l₀) (by rw [hsr]; exact List.mem_cons_self l₀ ls) hmem
        · exact ih (by rw [hsr]; exact List.mem_cons_of_mem _ h)

theorem splitNl_no_nl_single {l : List Char} (h : '\n' ∉ l) : splitNl l = [l] := by
  induction l with
  | nil => rfl
  | cons c rest ih =>
    have hc : ¬ c = '\n' := fun he => h (by rw [he]; exact List.mem_cons_self _ _)
    have hrest : '\n' ∉ rest := fun hm => h (List.mem_cons_of_mem _ hm)
    simp only [splitNl]
    rw [if_neg (by simp [hc]), ih hrest]

theorem splitNl_append {l : List Char} (rest : List Char) (h : '\n' ∉ l) :
    splitNl (l ++ '\n' :: rest) = l :: splitNl rest := by
  induction l with
  | nil =>
    simp only [List.nil_append, splitNl]
    rw [if_pos (by simp)]
  | cons c l ih =>
    have hc : ¬ c = '\n' := fun he => h (by rw [he]; exact List.mem_cons_self _ _)
    have hl : '\n' ∉ l := fun hm => h (List.mem_cons_of_mem _ hm)
    simp only [List.cons_append, splitNl, List.append_eq]
    rw [if_neg (by simp [hc]), ih hl]

theorem splitNl_joinNl {ls : List (List Char)} (hne : ls ≠ [])
    (h : ∀ l ∈ ls, '\n' ∉ l) : splitNl (joinNl ls) = ls := by
  induction ls with
  | nil => exact absurd rfl hne
  | cons l ls ih =>
    cases ls with
    | nil =>
      show splitNl (joinNl [l]) = [l]
      exact splitNl_no_nl_single (h l (List.mem_cons_self _ _))
    | cons l' ls' =>
      have hjoin : joinNl (l :: l' :: ls') = l ++ '\n' :: joinNl (l' :: ls') := rfl
      rw [hjoin, splitNl_append _ (h l (List.mem_cons_self _ _)),
        ih (by simp) (fun x hx => h x (List.mem_cons_of_mem _ hx))]

theorem replace_types_content_eq (content : List Char) :
    replace_types_content content
      = (joinNl ((splitNl content).map fun l => (processLine l).1),
         ((splitNl content).map fun l => (processLine l).2).sum) := by
  simp only [replace_types_content, List.map_map]
  rfl

theorem declLoop_eq (stripped : List Char) (ps : List (List Char → Bool)) :
    declLoop stripped ps
      = ((ps.any fun p => p stripped)
         && !(stripped.contains '\x7b' && !(stripped.contains '\x7d'))) := by
  induction ps with
  | nil => simp [declLoop]
  | cons p ps ih =>
    simp only [declLoop, List.any_cons]
    by_cases hp : p stripped = true
    · rw [if_pos hp, hp]
      by_cases hg : (stripped.contains '\x7b' && !(stripped.contains '\x7d')) = true
      · rw [if_pos hg, ih, hg]
        simp
      · rw [if_neg hg, Bool.not_eq_true] at *
        rw [hg]
        simp
    · rw [if_neg hp, Bool.not_eq_true] at *
      rw [ih, hp]
      simp

/-! ### Claims -/

/-- Claim C1 (code bug): the spec's template guard requires the line
`template<int N> struct Foo;` to be left unchanged by the Rewrite Engine.  The
analysis pass `find_bare_types` indeed rejects the `int` occurrence (the match
lies after an unclosed `<`), but `replace_types_in_file` applies no context
filter at all: it rewrites the line to `template<cforge_int_t N> struct Foo;`
and counts one change.  This theorem records both behaviours at the failing
input. -/
theorem c1_template_guard_divergence :
    find_bare_types "template<int N> struct Foo;".toList = [] ∧
    processLine "template<int N> struct Foo;".toList
      = ("template<cforge_int_t N> struct Foo;".toList, 1) := by
  constructor
  · decide
  · decide

/-- Claim C2 (counterexample): in the line `a<b> c<int x` the `int` match at
offset 7 is a genuine candidate occurrence whose preceding text `a<b> c<`
contains a `<` (at index 6) with no `>` after it, yet the Context Filter
accepts the occurrence and `find_bare_types` reports it — because the code's
guard tests `'>' not in before`, and a `>` occurs earlier in the preceding
text. -/
theorem c2_unclosed_lt_counterexample :
    wordMatchAt "int".toList "a<b> c<int x".toList 7 = true ∧
    ("a<b> c<int x".toList.take 7).getD 6 ' ' = '<' ∧
    (("a<b> c<int x".toList.take 7).drop 7).contains '>' = false ∧
    contextFilter 1 "a<b> c<int x".toList ("int".toList, "cforge_int_t".toList) 7
      = some (1, "int".toList, "cforge_int_t".toList) ∧
    find_bare_types "a<b> c<int x".toList
      = [(1, "int".toList, "cforge_int_t".toList)] := by
  refine ⟨by decide, by decide, by decide, by decide, by decide⟩

/-- Claim C2 (amended): the Context Filter rejects a candidate occurrence
exactly when the text preceding the match contains a `<` and contains no `>`
anywhere; in particular, whenever the preceding text contains a `<` and no
`>` at all, the occurrence is rejected. -/
theorem c2_amended_reject_when_no_gt (ln : Nat) (line : List Char)
    (m : List Char × List Char) (i : Nat)
    (h1 : (line.take i).contains '<' = true)
    (h2 : (line.take i).contains '>' = false) :
    contextFilter ln line m i = none := by
  unfold contextFilter
  rw [if_pos (by rw [h1, h2]; rfl)]

/-- Witness for `c2_amended_reject_when_no_gt` at the line `a<int x`,
offset 2. -/
theorem c2_amended_reject_when_no_gt_witness :
    ("a<int x".toList.take 2).contains '<' = true ∧
    ("a<int x".toList.take 2).contains '>' = false ∧
    contextFilter 1 "a<int x".toList ("int".toList, "cforge_int_t".toList) 2
      = none :=
  ⟨by decide, by decide,
   c2_amended_reject_when_no_gt 1 "a<int x".toList
     ("int".toList, "cforge_int_t".toList) 2 (by decide) (by decide)⟩

/-- Claim C3: every line on which some `SKIP_PATTERNS` marker matches (that
is, `should_skip_line` is true) is copied byte-identically by the Rewrite
Engine and contributes zero to the change count, regardless of any
primitive-type substrings on the line. -/
theorem c3_skip_lines_copied_unchanged (line : List Char)
    (h : should_skip_line line = true) : processLine line = (line, 0) := by
  unfold processLine
  rw [if_pos h]

/-- Witness for `c3_skip_lines_copied_unchanged` at a skipped line that does
contain primitive-type substrings. -/
theorem c3_skip_lines_copied_unchanged_witness :
    should_skip_line "typedef unsigned int u;".toList = true ∧
    processLine "typedef unsigned int u;".toList
      = ("typedef unsigned int u;".toList, 0) :=
  ⟨by decide, c3_skip_lines_copied_unchanged _ (by decide)⟩

/-- Claim C4: the Rewrite Engine applies the mappings in descending order of
raw pattern length with ties kept in original mapping order — the stable sort
`sorted_mappings` is exactly the expected sequence — and consequently the
line `unsigned long long x;` is rewritten to the single compound alias
`cforge_ulong_t x;` in one change, never a partial substitution. -/
theorem c4_longest_pattern_first :
    sorted_mappings = [
      ("unsigned long long".toList, "cforge_ulong_t".toList),
      ("signed long long".toList, "cforge_long_t".toList),
      ("unsigned short".toList, "cforge_ushort_t".toList),
      ("unsigned char".toList, "cforge_byte_t".toList),
      ("unsigned int".toList, "cforge_uint_t".toList),
      ("signed short".toList, "cforge_short_t".toList),
      ("signed char".toList, "cforge_sbyte_t".toList),
      ("long double".toList, "cforge_ldouble_t".toList),
      ("signed int".toList, "cforge_int_t".toList),
      ("long long".toList, "cforge_long_t".toList),
      ("double".toList, "cforge_double_t".toList),
      ("size_t".toList, "cforge_size_t".toList),
      ("float".toList, "cforge_float_t".toList),
      ("int".toList, "cforge_int_t".toList)] ∧
    processLine "unsigned long long x;".toList
      = ("cforge_ulong_t x;".toList, 1) := by
  constructor
  · decide
  · decide

/-- Claim C5: the change counter increments once per pattern application that
altered the line, not once per replaced occurrence.  On
`unsigned char buf[size_t(10)];` two patterns fire and the count rises by
exactly two; on `int a; int b;` one pattern replaces two occurrences and the
count rises by exactly one. -/
theorem c5_change_count_per_pattern :
    processLine "unsigned char buf[size_t(10)];".toList
      = ("cforge_byte_t buf[cforge_size_t(10)];".toList, 2) ∧
    processLine "int a; int b;".toList
      = ("cforge_int_t a; cforge_int_t b;".toList, 1) := by
  constructor
  · decide
  · decide

/-- Claim C6: the Rewrite Engine is idempotent — rewriting the content it
itself produced yields the identical content and a change count of zero (a
changed line now contains the `cforge_` alias prefix and is skipped; an
unchanged line behaves as before). -/
theorem c6_rewrite_idempotent (content : List Char) :
    replace_types_content (replace_types_content content).1
      = ((replace_types_content content).1, 0) := by
  have hne : ((splitNl content).map fun l => (processLine l).1) ≠ [] := fun he =>
    splitNl_ne_nil content (List.map_eq_nil_iff.mp he)
  have hnl : ∀ l ∈ (splitNl content).map fun l => (processLine l).1, '\n' ∉ l := by
    intro l hl
    obtain ⟨l₀, hl₀, rfl⟩ := List.mem_map.mp hl
    exact processLine_no_nl (mem_splitNl_no_nl hl₀)
  have hid : ∀ l ∈ (splitNl content).map fun l => (processLine l).1,
      processLine l = (l, 0) := by
    intro l hl
    obtain ⟨l₀, _, rfl⟩ := List.mem_map.mp hl
    exact processLine_idem l₀
  have h1 : (replace_types_content content).1
      = joinNl ((splitNl content).map fun l => (processLine l).1) := by
    rw [replace_types_content_eq]
  rw [h1, replace_types_content_eq, splitNl_joinNl hne hnl]
  simp only [Prod.mk.injEq]
  constructor
  · congr 1
    conv_rhs => rw [← List.map_id ((splitNl content).map fun l => (processLine l).1)]
    refine List.map_congr_left fun l hl => ?_
    rw [hid l hl]
    rfl
  · refine List.sum_eq_zero fun x hx => ?_
    obtain ⟨l, hl, rfl⟩ := List.mem_map.mp hx
    rw [hid l hl]

/-- Claim C7 (counterexample): the stripped line `class Foo { };` matches the
class declaration pattern and both opens `{` and closes `}` on the same line,
yet `find_declarations_in_source` reports it — the code only excludes lines
whose `{` has no matching `}`. -/
theorem c7_brace_line_reported_counterexample :
    matchClassDecl "class Foo \x7b \x7d;".toList = true ∧
    ("class Foo \x7b \x7d;".toList).contains '\x7b' = true ∧
    ("class Foo \x7b \x7d;".toList).contains '\x7d' = true ∧
    find_declarations_in_source "class Foo \x7b \x7d;".toList
      = [(1, "class Foo \x7b \x7d;".toList)] := by
  refine ⟨by decide, by decide, by decide, by decide⟩

/-- Claim C7 (amended): a stripped line matching one of the declaration
patterns is excluded from the reported declarations exactly when it contains
a `{` but no `}` on the same line (the opening line of a multi-line
definition); a line containing both `{` and `}` is reported. -/
theorem c7_amended_exclusion_rule (stripped : List Char)
    (hmatch : (declaration_patterns.any fun p => p stripped) = true) :
    declLineReported stripped = false ↔
      (stripped.contains '\x7b' = true ∧ stripped.contains '\x7d' = false) := by
  unfold declLineReported
  rw [declLoop_eq, hmatch, Bool.true_and]
  constructor
  · intro h
    rw [Bool.not_eq_false'] at h
    rcases Bool.and_eq_true _ _ |>.mp h with ⟨h1, h2⟩
    exact ⟨h1, by rwa [Bool.not_eq_true'] at h2⟩
  · rintro ⟨h1, h2⟩
    rw [h1, h2]
    rfl

/-- Witness for `c7_amended_exclusion_rule` at the stripped line
`class Foo {`, which matches the class pattern, opens `{` without `}`, and is
excluded. -/
theorem c7_amended_exclusion_rule_witness :
    (declaration_patterns.any fun p => p "class Foo \x7b".toList) = true ∧
    (declLineReported "class Foo \x7b".toList = false ↔
      (("class Foo \x7b".toList).contains '\x7b' = true ∧
       ("class Foo \x7b".toList).contains '\x7d' = false)) :=
  ⟨by decide, c7_amended_exclusion_rule "class Foo \x7b".toList (by decide)⟩

/-- Claim C8: in preview (dry-run) mode the Rewrite Engine never writes a
file, and in apply mode it writes only when the change count is positive —
so a file with zero changes is left untouched (byte-identical) by an
apply-mode run. -/
theorem c8_write_only_when_changed (path content : List Char) (dry_run : Bool) :
    (replace_types_in_file path (Except.ok content) true).written = none ∧
    ((replace_types_in_file path (Except.ok content) dry_run).written = none ∨
     (0 < (replace_types_in_file path (Except.ok content) dry_run).changes ∧
      dry_run = false)) := by
  constructor
  · by_cases h : 0 < (replace_types_content content).2
    · simp [replace_types_in_file, h]
    · simp [replace_types_in_file, h]
  · by_cases h : 0 < (replace_types_content content).2
    · cases dry_run with
      | true =>
        left
        simp [replace_types_in_file, h]
      | false => exact Or.inr ⟨h, rfl⟩
    · left
      simp [replace_types_in_file, h]

/-- Claim C9: a failed file read is caught by the Rewrite Engine, which
reports the path together with the underlying cause, returns a change count
of zero for that file, does not write it, and the run still processes every
file (the outcome list has one entry per input file and the printed total is
the sum of all per-file counts). -/
theorem c9_read_failure_recovered
    (files : List (List Char × Except (List Char) (List Char)))
    (dry_run : Bool) (i : Nat) (path e : List Char)
    (h : files[i]? = some (path, Except.error e)) :
    (run_replace files dry_run).1[i]?
      = some ⟨0, none,
          some ("Error reading ".toList ++ path ++ ": ".toList ++ e)⟩ ∧
    (run_replace files dry_run).1.length = files.length ∧
    (run_replace files dry_run).2
      = ((run_replace files dry_run).1.map FileOutcome.changes).sum := by
  refine ⟨?_, by simp [run_replace], by simp [run_replace]⟩
  simp only [run_replace, List.getElem?_map, h, Option.map_some]
  rfl

/-- Witness for `c9_read_failure_recovered` on a one-file run whose read
fails. -/
theorem c9_read_failure_recovered_witness :
    (run_replace sampleErrorFiles false).1[0]?
      = some ⟨0, none,
          some ("Error reading ".toList ++ "f.cpp".toList ++ ": ".toList
                ++ "boom".toList)⟩ ∧
    (run_replace sampleErrorFiles false).1.length = sampleErrorFiles.length ∧
    (run_replace sampleErrorFiles false).2
      = ((run_replace sampleErrorFiles false).1.map FileOutcome.changes).sum :=
  c9_read_failure_recovered sampleErrorFiles false 0 "f.cpp".toList
    "boom".toList rfl

/-- Claim C10: a line that reaches the Occurrence Locator (not skipped by the
Line Classifier) contains no occurrence of `cforge_` at all, so the Context
Filter's already-aliased guard can never fire on it: the filter's outcome is
decided by the template guard alone, and the `cforge_` rejection branch is
unreachable. -/
theorem c10_alias_guard_unreachable (line : List Char) (ln : Nat)
    (m : List Char × List Char) (i : Nat)
    (h : should_skip_line line = false) :
    containsSub "cforge_".toList line = false ∧
    contextFilter ln line m i
      = (if (line.take i).contains '<' && !((line.take i).contains '>')
         then none else some (ln, m.1, m.2)) := by
  have hcf : containsSub "cforge_".toList line = false := by
    cases hb : containsSub "cforge_".toList line with
    | false => rfl
    | true => rw [skip_of_cf hb] at h; cases h
  refine ⟨hcf, ?_⟩
  have hguard : containsSub "cforge_".toList
      ((line.take i).drop ((line.take i).length - 20)) = false := by
    cases hb : containsSub "cforge_".toList
        ((line.take i).drop ((line.take i).length - 20)) with
    | false => rfl
    | true =>
      have hinf : "cforge_".toList <:+: line :=
        (containsSub_iff.mp hb).trans (inf_dropTake line i _)
      rw [containsSub_iff.mpr hinf] at hcf
      cases hcf
  unfold contextFilter
  by_cases hlt : ((line.take i).contains '<'
      && !((line.take i).contains '>')) = true
  · rw [if_pos hlt, if_pos hlt]
  · rw [if_neg hlt, if_neg hlt, if_neg (by rw [hguard]; simp)]

/-- Witness for `c10_alias_guard_unreachable` at the unskipped line
`int x;`. -/
theorem c10_alias_guard_unreachable_witness :
    containsSub "cforge_".toList "int x;".toList = false ∧
    contextFilter 1 "int x;".toList ("int".toList, "cforge_int_t".toList) 0
      = (if ("int x;".toList.take 0).contains '<'
            && !(("int x;".toList.take 0).contains '>')
         then none else some (1, "int".toList, "cforge_int_t".toList)) :=
  c10_alias_guard_unreachable "int x;".toList 1
    ("int".toList, "cforge_int_t".toList) 0 (by decide)

end Refactor
